import Mathlib

/-
  Verification development for the playwright-algoexpert-scraper repository.

  The embedding below models, from scraper.js:
  - DataExtractor.extractTestCases  (the period-3 cursor pairing loop),
  - DataExtractor.extractQuestionData and removeNewlineSpaces,
  - Scraper.run                      (per-item pipeline, resume skip-list),
  - FileManager effects              (as an event trace),
  together with a model of the JavaScript runtime pieces the code calls:
  JSON.parse, String.prototype.trim, Array.prototype.join, String.replace
  with the regexes used in the source, and template literals.
-/

namespace AlgoScraper

/-! ## JavaScript string helpers used by the source -/

/-- Model of JS String.prototype.trim: drop whitespace at both ends. -/
def trimChars (cs : List Char) : List Char :=
  ((cs.dropWhile Char.isWhitespace).reverse.dropWhile Char.isWhitespace).reverse

/-- Model of JS `s.trim()`. -/
def jsTrim (s : String) : String :=
  String.mk (trimChars s.data)

/-- Model of JS `array.join(sep)`. -/
def joinSep (sep : String) : List String → String
  | [] => ""
  | [x] => x
  | x :: xs => x ++ sep ++ joinSep sep xs

/-! ## JSON values and a model of JSON.parse

JSON numbers are kept as their literal lexeme, which avoids floating point
while still distinguishing every value the scraper can encounter. -/

inductive Json where
  | null : Json
  | bool : Bool → Json
  | num : String → Json
  | str : String → Json
  | arr : List Json → Json
  | obj : List (String × Json) → Json

def braceOpen : Char := Char.ofNat 123

def braceClose : Char := Char.ofNat 125

/-- JSON whitespace skipping (space, tab, CR, LF). -/
def skipWs : List Char → List Char
  | [] => []
  | c :: cs => if c.isWhitespace then skipWs cs else c :: cs

/-- Take the longest digit run at the front. -/
def takeDigits : List Char → List Char × List Char
  | [] => ([], [])
  | c :: cs =>
    if c.isDigit then
      let p := takeDigits cs
      (c :: p.1, p.2)
    else ([], c :: cs)

/-- JSON integer part: `0` or a nonzero digit followed by digits. -/
def parseIntPart : List Char → Option (List Char × List Char)
  | [] => none
  | '0' :: cs => some (['0'], cs)
  | c :: cs =>
    if '1' ≤ c ∧ c ≤ '9' then
      let p := takeDigits cs
      some (c :: p.1, p.2)
    else none

/-- JSON optional fraction part. -/
def parseFracPart : List Char → Option (List Char × List Char)
  | '.' :: t =>
    match takeDigits t with
    | ([], _) => none
    | (ds, rest) => some ('.' :: ds, rest)
  | cs => some ([], cs)

/-- JSON optional exponent part. -/
def parseExpPart : List Char → Option (List Char × List Char)
  | [] => some ([], [])
  | c :: t =>
    if c = 'e' ∨ c = 'E' then
      let s := match t with
        | s :: t2 => if s = '+' ∨ s = '-' then ([s], t2) else (([] : List Char), s :: t2)
        | [] => ([], [])
      match takeDigits s.2 with
      | ([], _) => none
      | (ds, rest) => some (c :: (s.1 ++ ds), rest)
    else some ([], c :: t)

/-- JSON number literal; returns the lexeme and the remaining input. -/
def parseNumberLex (cs : List Char) : Option (String × List Char) :=
  let h : List Char × List Char := match cs with
    | '-' :: t => (['-'], t)
    | _ => ([], cs)
  match parseIntPart h.2 with
  | none => none
  | some (ip, cs2) =>
    match parseFracPart cs2 with
    | none => none
    | some (fp, cs3) =>
      match parseExpPart cs3 with
      | none => none
      | some (ep, cs4) => some (String.mk (h.1 ++ ip ++ fp ++ ep), cs4)

def hexVal (c : Char) : Option Nat :=
  if '0' ≤ c ∧ c ≤ '9' then some (c.toNat - '0'.toNat)
  else if 'a' ≤ c ∧ c ≤ 'f' then some (c.toNat - 'a'.toNat + 10)
  else if 'A' ≤ c ∧ c ≤ 'F' then some (c.toNat - 'A'.toNat + 10)
  else none

def escChar (c : Char) : Option Char :=
  if c = '"' then some '"'
  else if c = '\\' then some '\\'
  else if c = '/' then some '/'
  else if c = 'b' then some (Char.ofNat 8)
  else if c = 'f' then some (Char.ofNat 12)
  else if c = 'n' then some '\n'
  else if c = 'r' then some '\r'
  else if c = 't' then some '\t'
  else none

/-- Body of a JSON string after the opening quote. -/
def parseStringBody : List Char → Option (List Char × List Char)
  | [] => none
  | '"' :: rest => some ([], rest)
  | '\\' :: 'u' :: h1 :: h2 :: h3 :: h4 :: rest =>
    match hexVal h1, hexVal h2, hexVal h3, hexVal h4 with
    | some a, some b, some c, some d =>
      match parseStringBody rest with
      | some (s, r) => some (Char.ofNat (((a * 16 + b) * 16 + c) * 16 + d) :: s, r)
      | none => none
    | _, _, _, _ => none
  | '\\' :: c :: rest =>
    match escChar c with
    | some e =>
      match parseStringBody rest with
      | some (s, r) => some (e :: s, r)
      | none => none
    | none => none
  | '\\' :: [] => none
  | c :: rest =>
    if c.toNat < 32 then none
    else
      match parseStringBody rest with
      | some (s, r) => some (c :: s, r)
      | none => none

mutual

/-- JSON value parser (fuel-indexed recursive descent). -/
def parseValue : Nat → List Char → Option (Json × List Char)
  | 0, _ => none
  | fuel + 1, cs =>
    match skipWs cs with
    | 't' :: 'r' :: 'u' :: 'e' :: rest => some (Json.bool true, rest)
    | 'f' :: 'a' :: 'l' :: 's' :: 'e' :: rest => some (Json.bool false, rest)
    | 'n' :: 'u' :: 'l' :: 'l' :: rest => some (Json.null, rest)
    | '"' :: rest =>
      match parseStringBody rest with
      | some (s, r) => some (Json.str (String.mk s), r)
      | none => none
    | '[' :: rest => parseArrayItems fuel (skipWs rest)
    | c :: rest =>
      if c = braceOpen then parseObjectItems fuel (skipWs rest)
      else
        match parseNumberLex (c :: rest) with
        | some (lex, r) => some (Json.num lex, r)
        | none => none
    | [] => none

/-- Array contents after the opening bracket (whitespace already skipped). -/
def parseArrayItems : Nat → List Char → Option (Json × List Char)
  | 0, _ => none
  | fuel + 1, cs =>
    match cs with
    | ']' :: rest => some (Json.arr [], rest)
    | _ =>
      match parseValue fuel cs with
      | none => none
      | some (v, r) => parseArrayRest fuel [v] r

/-- Remaining array elements, accumulated in reverse. -/
def parseArrayRest : Nat → List Json → List Char → Option (Json × List Char)
  | 0, _, _ => none
  | fuel + 1, acc, cs =>
    match skipWs cs with
    | ']' :: rest => some (Json.arr acc.reverse, rest)
    | ',' :: rest =>
      match parseValue fuel rest with
      | none => none
      | some (v, r) => parseArrayRest fuel (v :: acc) r
    | _ => none

/-- Object contents after the opening brace (whitespace already skipped). -/
def parseObjectItems : Nat → List Char → Option (Json × List Char)
  | 0, _ => none
  | fuel + 1, cs =>
    match cs with
    | [] => none
    | c :: rest =>
      if c = braceClose then some (Json.obj [], rest)
      else
        match parseMember fuel (c :: rest) with
        | none => none
        | some (kv, r) => parseObjectRest fuel [kv] r

/-- One `"key": value` member. -/
def parseMember : Nat → List Char → Option ((String × Json) × List Char)
  | 0, _ => none
  | fuel + 1, cs =>
    match cs with
    | '"' :: rest =>
      match parseStringBody rest with
      | some (k, r) =>
        match skipWs r with
        | ':' :: r2 =>
          match parseValue fuel r2 with
          | some (v, r3) => some ((String.mk k, v), r3)
          | none => none
        | _ => none
      | none => none
    | _ => none

/-- Remaining object members, accumulated in reverse. -/
def parseObjectRest : Nat → List (String × Json) → List Char → Option (Json × List Char)
  | 0, _, _ => none
  | fuel + 1, acc, cs =>
    match skipWs cs with
    | [] => none
    | c :: rest =>
      if c = braceClose then some (Json.obj acc.reverse, rest)
      else if c = ',' then
        match parseMember fuel (skipWs rest) with
        | none => none
        | some (kv, r) => parseObjectRest fuel (kv :: acc) r
      else none

end

/-- Model of JS `JSON.parse`: a full JSON document, allowing surrounding
whitespace, rejecting trailing garbage; `none` models a thrown SyntaxError. -/
def jsonParse (s : String) : Option Json :=
  match parseValue (s.length + 2) s.data with
  | some (v, rest) =>
    match skipWs rest with
    | [] => some v
    | _ => none
  | none => none

/-! ## The Test-Case Pairing Algorithm (DataExtractor.extractTestCases) -/

/-- Model of the regex test `/^[a-zA-Z]/.test(s)` from the source. -/
def startsWithAsciiLetter (s : String) : Bool :=
  match s.data with
  | [] => false
  | c :: _ => if ('a' ≤ c ∧ c ≤ 'z') ∨ ('A' ≤ c ∧ c ≤ 'Z') then true else false

structure TestCase where
  inputs : Option Json
  expected : Option Json
  name : String

/-- The synthesized test-case label, from the template literal in the source. -/
def mkName (n : Nat) : String := "Test Case " ++ toString n

/-- The body of one loop iteration of extractTestCases: the try block sets
`inputs` from JSON.parse of the input fragment, then sets `expected` either to
the raw string (leading ASCII letter) or to JSON.parse of the expected
fragment; a thrown parse error aborts the rest of the try block, so a failed
input parse leaves both fields unset, and a failed expected parse leaves only
`expected` unset. The name is assigned after the catch, unconditionally. -/
def pairTestCase (expectedTxt inputTxt : String) (testNum : Nat) : TestCase :=
  match jsonParse inputTxt with
  | none => { inputs := none, expected := none, name := mkName testNum }
  | some inp =>
    if startsWithAsciiLetter expectedTxt then
      { inputs := some inp, expected := some (Json.str expectedTxt), name := mkName testNum }
    else
      { inputs := some inp, expected := jsonParse expectedTxt, name := mkName testNum }

/-- The while loop of extractTestCases: cursors `expectIdx`/`inputIdx`, loop
guard `inputIdx < allTestcaseEle.length`, updates `expectIdx = inputIdx + 1`
and `inputIdx = expectIdx + 2`. Fuel-indexed; `frags.length` fuel is always
enough since `inputIdx` grows by 3 per iteration. -/
def extractLoopF : Nat → List String → Nat → Nat → Nat → List TestCase
  | 0, _, _, _, _ => []
  | fuel + 1, frags, testNum, expectIdx, inputIdx =>
    if inputIdx < frags.length then
      pairTestCase (frags.getD expectIdx "") (frags.getD inputIdx "") testNum ::
        extractLoopF fuel frags (testNum + 1) (inputIdx + 1) (inputIdx + 3)
    else []

/-- Model of DataExtractor.extractTestCases on an already-extracted fragment
sequence: `testNum = 1`, `expectIdx = 0`, `inputIdx = 2`. -/
def extractTestCases (frags : List String) : List TestCase :=
  extractLoopF frags.length frags 1 0 2

/-! Sanity checks of the runtime model on concrete data. -/

example : jsonParse "5" = some (Json.num "5") := rfl

example : jsonParse "[1,2,3]" =
    some (Json.arr [Json.num "1", Json.num "2", Json.num "3"]) := rfl

example : jsonParse "x" = none := rfl

example : jsonParse "True" = none := rfl

example : jsonParse " true" = some (Json.bool true) := rfl

example : startsWithAsciiLetter "True" = true := rfl

example : startsWithAsciiLetter "[4,5]" = false := rfl

/-! ## The item pipeline (Scraper.run) and its effect trace

External effects (navigation, the test-case panel interaction, directory
creation, file writes, skip-list appends, error logging) are recorded as an
event trace; the outside world's responses for one item are an `ItemOracle`. -/

structure CodingQuestion where
  title : String
  description : String
  exampleInput : String
  exampleOutput : String

/-- The external world's behavior for one item URL: what navigation does,
what the DOM queries return, and whether each filesystem call succeeds.
`titleText = none` models getElementText returning null (selector miss);
`testcaseFrags = none` models a throw while clicking Run Code / expanding /
querying the test-case fragments. -/
structure ItemOracle where
  navOk : Bool
  titleText : Option String
  paragraphs : List String
  preTexts : List String
  mkdirOk : String → Bool
  testcaseFrags : Option (List String)
  saveMdOk : Bool
  saveJsonOk : Bool
  appendOk : Bool

/-- Model of `text.replace(/\n\s+/g, '\n')`: the flag records that the
previous characters were a newline (or whitespace already absorbed into
one), in which case further whitespace is dropped. -/
def squashGo : Bool → List Char → List Char
  | _, [] => []
  | true, c :: rest =>
    if c.isWhitespace then squashGo true rest else c :: squashGo false rest
  | false, c :: rest => c :: squashGo (c = '\n') rest

/-- DataExtractor.removeNewlineSpaces: replace, then trim. -/
def removeNewlineSpaces (text : String) : String :=
  jsTrim (String.mk (squashGo false text.data))

/-- DataExtractor.extractQuestionData: a null title or fewer than two
example pre-tags throws (undefined.trim()); the description joins the
normalized paragraphs with blank lines. -/
def extractQuestionData (o : ItemOracle) : Option CodingQuestion :=
  match o.titleText with
  | none => none
  | some t =>
    match o.preTexts with
    | e0 :: e1 :: _ =>
      some { title := jsTrim t,
             description := joinSep "\n\n" (o.paragraphs.map removeNewlineSpaces),
             exampleInput := jsTrim e0,
             exampleOutput := jsTrim e1 }
    | _ => none

/-- The numeric directory tag: `(questionNum > 9) ? num + dash : zero + num + dash`. -/
def numberTag (questionNum : Nat) : String :=
  if questionNum > 9 then toString questionNum ++ "-" else "0" ++ toString questionNum ++ "-"

/-- Model of `title.replace(/\s+/g, '-')`: each whitespace run becomes one dash. -/
def dashGo : Bool → List Char → List Char
  | _, [] => []
  | inRun, c :: rest =>
    if c.isWhitespace then
      if inRun then dashGo true rest else '-' :: dashGo true rest
    else c :: dashGo false rest

def dashedTitle (t : String) : String := String.mk (dashGo false t.data)

/-- The per-item directory name built in Scraper.run. -/
def dirName (questionNum : Nat) (title : String) : String :=
  numberTag questionNum ++ dashedTitle title

/-- Model of path.join for the paths the scraper builds. -/
def pathJoin (a b : String) : String := a ++ "/" ++ b

/-- `<downloadBasePath>/<category>/<NN>-<Title-With-Dashes>`. -/
def itemDirPath (basePath category : String) (questionNum : Nat) (title : String) : String :=
  pathJoin (pathJoin basePath category) (dirName questionNum title)

/-- The LANGUAGES constant of scraper.js. -/
def LANGUAGES : List String := ["Golang", "Java", "JavaScript", "Python"]

inductive Event where
  | navigate (url : String)
  | mkdir (path : String)
  | extractTC (url : String)
  | writeMarkdown (path : String) (q : CodingQuestion)
  | writeJson (path : String) (tcs : List TestCase)
  | appendSkip (url : String)
  | logError (url : String)

/-- Sequential directory creation; a failing mkdir throws, so later
directories are not attempted and no event is recorded for the failure. -/
def mkdirAll (ok : String → Bool) : List String → List Event × Bool
  | [] => ([], true)
  | p :: rest =>
    if ok p then
      let r := mkdirAll ok rest
      (Event.mkdir p :: r.1, r.2)
    else ([], false)

/-- One iteration of the URL loop in Scraper.run for a non-skipped URL:
navigate, extract the question record, reject empty title/description
(continue, no further effects), build the directory layout, extract the
test cases, write README.md and testcases.json, append to urls_to_skip.txt.
The Bool is true exactly when the URL was committed (appended to the
skip-list file and added to the in-memory set); any thrown step lands in
the catch block, which logs the error with the URL. -/
def processItem (o : ItemOracle) (basePath category url : String) (questionNum : Nat) :
    List Event × Bool :=
  if o.navOk then
    match extractQuestionData o with
    | none => ([Event.navigate url, Event.logError url], false)
    | some q =>
      if q.title = "" ∨ q.description = "" then ([Event.navigate url], false)
      else
        match mkdirAll o.mkdirOk
            (itemDirPath basePath category questionNum q.title ::
              LANGUAGES.map (fun lang => pathJoin (itemDirPath basePath category questionNum q.title) lang)) with
        | (devs, false) => (Event.navigate url :: devs ++ [Event.logError url], false)
        | (devs, true) =>
          match o.testcaseFrags with
          | none => (Event.navigate url :: devs ++ [Event.extractTC url, Event.logError url], false)
          | some frags =>
            if o.saveMdOk then
              if o.saveJsonOk then
                if o.appendOk then
                  (Event.navigate url :: devs ++
                    [Event.extractTC url,
                     Event.writeMarkdown (pathJoin (itemDirPath basePath category questionNum q.title) "README.md") q,
                     Event.writeJson (pathJoin (itemDirPath basePath category questionNum q.title) "testcases.json")
                       (extractTestCases frags),
                     Event.appendSkip url], true)
                else
                  (Event.navigate url :: devs ++
                    [Event.extractTC url,
                     Event.writeMarkdown (pathJoin (itemDirPath basePath category questionNum q.title) "README.md") q,
                     Event.writeJson (pathJoin (itemDirPath basePath category questionNum q.title) "testcases.json")
                       (extractTestCases frags),
                     Event.logError url], false)
              else
                (Event.navigate url :: devs ++
                  [Event.extractTC url,
                   Event.writeMarkdown (pathJoin (itemDirPath basePath category questionNum q.title) "README.md") q,
                   Event.logError url], false)
            else
              (Event.navigate url :: devs ++ [Event.extractTC url, Event.logError url], false)
  else ([Event.navigate url, Event.logError url], false)

/-- The inner while loop of Scraper.run over one category's URL queue.
`questionNum` increments on every dequeued URL (skip, invalid record,
failure, or success alike); a URL already in the scraped set is skipped
before any effect. -/
def processQueue (o : String → ItemOracle) (basePath category : String) :
    List String → Nat → List String → List Event × List String
  | [], _, scraped => ([], scraped)
  | url :: rest, questionNum, scraped =>
    if scraped.contains url then
      processQueue o basePath category rest (questionNum + 1) scraped
    else
      let item := processItem (o url) basePath category url questionNum
      let scraped2 := if item.2 then scraped ++ [url] else scraped
      let next := processQueue o basePath category rest (questionNum + 1) scraped2
      (item.1 ++ next.1, next.2)

/-- The category loop of Scraper.run over the indexed catalog; the scraped
set is threaded through all categories and `questionNum` restarts at 1 per
category. -/
def runScraper (o : String → ItemOracle) (basePath : String) :
    List (String × List String) → List String → List Event × List String
  | [], scraped => ([], scraped)
  | (category, urls) :: rest, scraped =>
    let catRun := processQueue o basePath category urls 1 scraped
    let next := runScraper o basePath rest catRun.2
    (catRun.1 ++ next.1, next.2)

/-! ## Trace predicates used to state the temporal claims -/

def isExtractTC : Event → Bool
  | Event.extractTC _ => true
  | _ => false

/-- True when some mkdir event is followed (strictly later) by a test-case
extraction event. -/
def hasMkdirBeforeExtract : List Event → Bool
  | [] => false
  | Event.mkdir _ :: rest => rest.any isExtractTC || hasMkdirBeforeExtract rest
  | _ :: rest => hasMkdirBeforeExtract rest

/-! ## Concrete data used by witnesses and counterexamples -/

/-- The fragment sequence from the spec's pairing-correctness property. -/
def demoFrags : List String := ["5", "[1,2,3]", "x", "True", "[4,5]", "y"]

/-- The same six fragments laid out as the code actually consumes them:
expected at offset 0, extraneous at offset 1, input at offset 2 of each
period-3 group. -/
def demoFragsReordered : List String := ["5", "x", "[1,2,3]", "True", "y", "[4,5]"]

/-- An oracle for a fully successful item. -/
def oGood : ItemOracle where
  navOk := true
  titleText := some "Two Number Sum"
  paragraphs := ["A sample description."]
  preTexts := ["[1, 2]", "3"]
  mkdirOk := fun _ => true
  testcaseFrags := some demoFrags
  saveMdOk := true
  saveJsonOk := true
  appendOk := true

/-- An oracle whose page has no description paragraphs: the extracted
description is the empty string. -/
def oEmptyDesc : ItemOracle where
  navOk := true
  titleText := some "Two Number Sum"
  paragraphs := []
  preTexts := ["[1, 2]", "3"]
  mkdirOk := fun _ => true
  testcaseFrags := some demoFrags
  saveMdOk := true
  saveJsonOk := true
  appendOk := true

example : extractQuestionData oGood =
    some { title := "Two Number Sum", description := "A sample description.",
           exampleInput := "[1, 2]", exampleOutput := "3" } := rfl

example : extractQuestionData oEmptyDesc =
    some { title := "Two Number Sum", description := "",
           exampleInput := "[1, 2]", exampleOutput := "3" } := rfl

example : dirName 1 "Two Number Sum" = "01-Two-Number-Sum" := rfl

example : extractTestCases demoFrags =
    [⟨none, none, "Test Case 1"⟩, ⟨none, none, "Test Case 2"⟩] := rfl

example : extractTestCases demoFragsReordered =
    [⟨some (Json.arr [Json.num "1", Json.num "2", Json.num "3"]), some (Json.num "5"),
        "Test Case 1"⟩,
     ⟨some (Json.arr [Json.num "4", Json.num "5"]), some (Json.str "True"), "Test Case 2"⟩] := rfl

/-! ## Closed form of the pairing loop -/

theorem extractLoopF_getElem? (frags : List String) :
    ∀ (fuel j k n : Nat), frags.length ≤ 3 * j + 3 * fuel →
      (extractLoopF fuel frags n (3 * j) (3 * j + 2))[k]? =
        if 3 * (j + k) + 2 < frags.length then
          some (pairTestCase (frags.getD (3 * (j + k)) "") (frags.getD (3 * (j + k) + 2) "")
            (n + k))
        else none := by
  intro fuel
  induction fuel with
  | zero =>
    intro j k n hle
    rw [if_neg (by omega)]
    simp [extractLoopF]
  | succ fuel ih =>
    intro j k n hle
    by_cases h : 3 * j + 2 < frags.length
    · rw [extractLoopF, if_pos h]
      cases k with
      | zero =>
        rw [if_pos (by omega)]
        simp only [List.getElem?_cons_zero, Nat.add_zero]
      | succ k =>
        simp only [List.getElem?_cons_succ]
        have e1 : 3 * j + 2 + 1 = 3 * (j + 1) := by ring
        have e2 : 3 * j + 2 + 3 = 3 * (j + 1) + 2 := by ring
        rw [e1, e2, ih (j + 1) k (n + 1) (by omega),
          show j + 1 + k = j + (k + 1) from by omega,
          show n + 1 + k = n + (k + 1) from by omega]
    · rw [extractLoopF, if_neg h, if_neg (by omega)]
      simp

theorem extractLoopF_length (frags : List String) :
    ∀ (fuel j n : Nat), frags.length ≤ 3 * j + 3 * fuel →
      (extractLoopF fuel frags n (3 * j) (3 * j + 2)).length = frags.length / 3 - j := by
  intro fuel
  induction fuel with
  | zero =>
    intro j n hle
    simp only [extractLoopF, List.length_nil]
    omega
  | succ fuel ih =>
    intro j n hle
    by_cases h : 3 * j + 2 < frags.length
    · rw [extractLoopF, if_pos h]
      simp only [List.length_cons]
      have e1 : 3 * j + 2 + 1 = 3 * (j + 1) := by ring
      have e2 : 3 * j + 2 + 3 = 3 * (j + 1) + 2 := by ring
      rw [e1, e2, ih (j + 1) (n + 1) (by omega)]
      omega
    · rw [extractLoopF, if_neg h]
      simp only [List.length_nil]
      omega

theorem extractTestCases_length (frags : List String) :
    (extractTestCases frags).length = frags.length / 3 := by
  have hh := extractLoopF_length frags frags.length 0 1 (by omega)
  simp only [Nat.mul_zero, Nat.zero_add, Nat.sub_zero] at hh
  exact hh

theorem extractTestCases_getElem? (frags : List String) (k : Nat)
    (h : 3 * k + 2 < frags.length) :
    (extractTestCases frags)[k]? =
      some (pairTestCase (frags.getD (3 * k) "") (frags.getD (3 * k + 2) "") (k + 1)) := by
  have hh := extractLoopF_getElem? frags frags.length 0 k 1 (by omega)
  simp only [Nat.mul_zero, Nat.zero_add] at hh
  rw [show (1 : Nat) + k = k + 1 from by omega] at hh
  rw [extractTestCases]
  rw [hh, if_pos h]

theorem pairTestCase_name (expectedTxt inputTxt : String) (n : Nat) :
    (pairTestCase expectedTxt inputTxt n).name = "Test Case " ++ toString n := by
  rw [pairTestCase]
  cases jsonParse inputTxt with
  | none => rfl
  | some v =>
    simp only
    by_cases h : startsWithAsciiLetter expectedTxt = true
    · rw [if_pos h]; rfl
    · rw [if_neg h]; rfl

/-! ## Structure of the per-item trace -/

theorem getLast?_cons_concat {α : Type} (a : α) (l : List α) (b : α) :
    (a :: (l ++ [b])).getLast? = some b := by
  rw [show a :: (l ++ [b]) = (a :: l) ++ [b] from rfl, List.getLast?_concat]

theorem getLast?_cons_append_concat {α : Type} (a : α) (l1 l2 : List α) (b : α) :
    (a :: (l1 ++ (l2 ++ [b]))).getLast? = some b := by
  rw [← List.append_assoc]
  exact getLast?_cons_concat a (l1 ++ l2) b

theorem mkdirAll_mem (ok : String → Bool) :
    ∀ (l : List String) (e : Event), e ∈ (mkdirAll ok l).1 → ∃ p, e = Event.mkdir p := by
  intro l
  induction l with
  | nil => intro e he; simp [mkdirAll] at he
  | cons p rest ih =>
    intro e he
    by_cases h : ok p = true
    · simp only [mkdirAll, if_pos h] at he
      rcases List.mem_cons.mp he with h1 | h2
      · exact ⟨p, h1⟩
      · exact ih e h2
    · simp only [mkdirAll, if_neg h] at he
      simp at he

theorem mkdirAll_length (ok : String → Bool) :
    ∀ l : List String, (mkdirAll ok l).2 = true → (mkdirAll ok l).1.length = l.length := by
  intro l
  induction l with
  | nil => intro _; rfl
  | cons p rest ih =>
    intro h2
    by_cases h : ok p = true
    · simp only [mkdirAll, if_pos h] at h2 ⊢
      simp only [List.length_cons]
      rw [ih h2]
    · simp only [mkdirAll, if_neg h] at h2
      exact Bool.noConfusion h2

/-- Shape of the per-item trace when the item commits: every step succeeded,
and the trace is navigation, the directory creations, the test-case panel
interaction, the two file writes, and the skip-list append, in that order. -/
theorem processItem_committed_shape (o : ItemOracle) (bp cat url : String) (n : Nat)
    (h : (processItem o bp cat url n).2 = true) :
    ∃ q frags devs, extractQuestionData o = some q ∧ ¬(q.title = "" ∨ q.description = "") ∧
      o.testcaseFrags = some frags ∧ (∀ e ∈ devs, ∃ p, e = Event.mkdir p) ∧
      devs.length = 1 + LANGUAGES.length ∧
      (processItem o bp cat url n).1 =
        Event.navigate url :: devs ++
          [Event.extractTC url,
           Event.writeMarkdown (pathJoin (itemDirPath bp cat n q.title) "README.md") q,
           Event.writeJson (pathJoin (itemDirPath bp cat n q.title) "testcases.json")
             (extractTestCases frags),
           Event.appendSkip url] := by
  have hpi : processItem o bp cat url n = processItem o bp cat url n := rfl
  conv_rhs at hpi => rw [processItem]
  split at hpi
  · split at hpi
    · rw [hpi] at h; exact Bool.noConfusion h
    · rename_i q hq
      split at hpi
      · rw [hpi] at h; exact Bool.noConfusion h
      · rename_i hempty
        split at hpi
        · rw [hpi] at h; exact Bool.noConfusion h
        · rename_i devs hdevs
          split at hpi
          · rw [hpi] at h; exact Bool.noConfusion h
          · rename_i frags hfrags
            split at hpi
            · split at hpi
              · split at hpi
                · refine ⟨q, frags, devs, hq, hempty, hfrags, ?_, ?_, ?_⟩
                  · intro e he
                    exact mkdirAll_mem o.mkdirOk _ e (by rw [hdevs]; exact he)
                  · have hl := mkdirAll_length o.mkdirOk
                      (itemDirPath bp cat n q.title ::
                        LANGUAGES.map (fun lang => pathJoin (itemDirPath bp cat n q.title) lang))
                      (by rw [hdevs])
                    rw [hdevs] at hl
                    simp only [List.length_cons, List.length_map] at hl
                    omega
                  · rw [hpi]
                · rw [hpi] at h; exact Bool.noConfusion h
              · rw [hpi] at h; exact Bool.noConfusion h
            · rw [hpi] at h; exact Bool.noConfusion h
  · rw [hpi] at h; exact Bool.noConfusion h

theorem appendSkip_not_mem_mkdirs (url : String) (devs : List Event)
    (hdevs : ∀ e ∈ devs, ∃ p, e = Event.mkdir p) : Event.appendSkip url ∉ devs := by
  intro hin
  rcases hdevs _ hin with ⟨p, hp⟩
  exact Event.noConfusion hp

/-- Shape of the per-item trace when the item does not commit: the skip-list
append never happened, and either the item was rejected for empty metadata
(only the navigation happened) or a step threw and the catch block logged the
error with the URL as the final effect. -/
theorem processItem_failed_shape (o : ItemOracle) (bp cat url : String) (n : Nat)
    (h : (processItem o bp cat url n).2 = false) :
    Event.appendSkip url ∉ (processItem o bp cat url n).1 ∧
      ((processItem o bp cat url n).1.getLast? = some (Event.logError url) ∨
        (processItem o bp cat url n).1 = [Event.navigate url]) := by
  have hpi : processItem o bp cat url n = processItem o bp cat url n := rfl
  conv_rhs at hpi => rw [processItem]
  split at hpi
  · split at hpi
    · rw [hpi]
      refine ⟨by simp, Or.inl rfl⟩
    · rename_i q hq
      split at hpi
      · rw [hpi]
        refine ⟨by simp, Or.inr rfl⟩
      · rename_i hempty
        split at hpi
        · rename_i devs hdevs
          rw [hpi]
          refine ⟨?_, Or.inl (getLast?_cons_append_concat _ _ [] _)⟩
          intro hin
          rcases List.mem_cons.mp hin with he | hin2
          · exact Event.noConfusion he
          rcases List.mem_append.mp hin2 with h3 | h4
          · exact appendSkip_not_mem_mkdirs url devs
              (fun e he => mkdirAll_mem o.mkdirOk _ e (by rw [hdevs]; exact he)) h3
          · simp at h4
        · rename_i devs hdevs
          split at hpi
          · rw [hpi]
            refine ⟨?_, Or.inl (getLast?_cons_append_concat _ _ [Event.extractTC url] _)⟩
            intro hin
            rcases List.mem_cons.mp hin with he | hin2
            · exact Event.noConfusion he
            rcases List.mem_append.mp hin2 with h3 | h4
            · exact appendSkip_not_mem_mkdirs url devs
                (fun e he => mkdirAll_mem o.mkdirOk _ e (by rw [hdevs]; exact he)) h3
            · simp at h4
          · rename_i frags hfrags
            split at hpi
            · split at hpi
              · split at hpi
                · rw [hpi] at h; exact Bool.noConfusion h
                · rw [hpi]
                  refine ⟨?_, Or.inl (getLast?_cons_append_concat _ _
                    [Event.extractTC url,
                     Event.writeMarkdown (pathJoin (itemDirPath bp cat n q.title) "README.md") q,
                     Event.writeJson (pathJoin (itemDirPath bp cat n q.title) "testcases.json")
                       (extractTestCases frags)] _)⟩
                  intro hin
                  rcases List.mem_cons.mp hin with he | hin2
                  · exact Event.noConfusion he
                  rcases List.mem_append.mp hin2 with h3 | h4
                  · exact appendSkip_not_mem_mkdirs url devs
                      (fun e he => mkdirAll_mem o.mkdirOk _ e (by rw [hdevs]; exact he)) h3
                  · simp at h4
              · rw [hpi]
                refine ⟨?_, Or.inl (getLast?_cons_append_concat _ _
                  [Event.extractTC url,
                   Event.writeMarkdown (pathJoin (itemDirPath bp cat n q.title) "README.md") q] _)⟩
                intro hin
                rcases List.mem_cons.mp hin with he | hin2
                · exact Event.noConfusion he
                rcases List.mem_append.mp hin2 with h3 | h4
                · exact appendSkip_not_mem_mkdirs url devs
                    (fun e he => mkdirAll_mem o.mkdirOk _ e (by rw [hdevs]; exact he)) h3
                · simp at h4
            · rw [hpi]
              refine ⟨?_, Or.inl (getLast?_cons_append_concat _ _ [Event.extractTC url] _)⟩
              intro hin
              rcases List.mem_cons.mp hin with he | hin2
              · exact Event.noConfusion he
              rcases List.mem_append.mp hin2 with h3 | h4
              · exact appendSkip_not_mem_mkdirs url devs
                  (fun e he => mkdirAll_mem o.mkdirOk _ e (by rw [hdevs]; exact he)) h3
              · simp at h4
  · rw [hpi]
    refine ⟨by simp, Or.inl rfl⟩

/-- Any markdown write recorded by the per-item pipeline carries the record
extracted for that item, which passed the non-empty title/description check. -/
theorem processItem_writeMarkdown_mem (o : ItemOracle) (bp cat url : String) (n : Nat)
    (p : String) (q : CodingQuestion)
    (h : Event.writeMarkdown p q ∈ (processItem o bp cat url n).1) :
    q.title ≠ "" ∧ q.description ≠ "" := by
  have hpi : processItem o bp cat url n = processItem o bp cat url n := rfl
  conv_rhs at hpi => rw [processItem]
  split at hpi
  · split at hpi
    · rw [hpi] at h; simp at h
    · rename_i q0 hq0
      split at hpi
      · rw [hpi] at h; simp at h
      · rename_i hempty
        push_neg at hempty
        split at hpi
        · rename_i devs hdevs
          rw [hpi] at h
          rcases List.mem_cons.mp h with he | hin2
          · exact Event.noConfusion he
          rcases List.mem_append.mp hin2 with h3 | h4
          · rcases mkdirAll_mem o.mkdirOk _ _ (by rw [hdevs]; exact h3) with ⟨pp, hpp⟩
            exact Event.noConfusion hpp
          · simp at h4
        · rename_i devs hdevs
          split at hpi
          · rw [hpi] at h
            rcases List.mem_cons.mp h with he | hin2
            · exact Event.noConfusion he
            rcases List.mem_append.mp hin2 with h3 | h4
            · rcases mkdirAll_mem o.mkdirOk _ _ (by rw [hdevs]; exact h3) with ⟨pp, hpp⟩
              exact Event.noConfusion hpp
            · simp at h4
          · rename_i frags hfrags
            split at hpi
            · split at hpi
              · split at hpi
                · rw [hpi] at h
                  rcases List.mem_cons.mp h with he | hin2
                  · exact Event.noConfusion he
                  rcases List.mem_append.mp hin2 with h3 | h4
                  · rcases mkdirAll_mem o.mkdirOk _ _ (by rw [hdevs]; exact h3) with ⟨pp, hpp⟩
                    exact Event.noConfusion hpp
                  · simp only [List.mem_cons, List.mem_singleton] at h4
                    rcases h4 with h5 | h5 | h5 | h5 | h5
                    · exact Event.noConfusion h5
                    · injection h5 with hp hq2
                      rw [hq2]
                      exact hempty
                    · exact Event.noConfusion h5
                    · exact Event.noConfusion h5
                    · simp at h5
                · rw [hpi] at h
                  rcases List.mem_cons.mp h with he | hin2
                  · exact Event.noConfusion he
                  rcases List.mem_append.mp hin2 with h3 | h4
                  · rcases mkdirAll_mem o.mkdirOk _ _ (by rw [hdevs]; exact h3) with ⟨pp, hpp⟩
                    exact Event.noConfusion hpp
                  · simp only [List.mem_cons, List.mem_singleton] at h4
                    rcases h4 with h5 | h5 | h5 | h5 | h5
                    · exact Event.noConfusion h5
                    · injection h5 with hp hq2
                      rw [hq2]
                      exact hempty
                    · exact Event.noConfusion h5
                    · exact Event.noConfusion h5
                    · simp at h5
              · rw [hpi] at h
                rcases List.mem_cons.mp h with he | hin2
                · exact Event.noConfusion he
                rcases List.mem_append.mp hin2 with h3 | h4
                · rcases mkdirAll_mem o.mkdirOk _ _ (by rw [hdevs]; exact h3) with ⟨pp, hpp⟩
                  exact Event.noConfusion hpp
                · simp only [List.mem_cons, List.mem_singleton] at h4
                  rcases h4 with h5 | h5 | h5 | h5
                  · exact Event.noConfusion h5
                  · injection h5 with hp hq2
                    rw [hq2]
                    exact hempty
                  · exact Event.noConfusion h5
                  · simp at h5
            · rw [hpi] at h
              rcases List.mem_cons.mp h with he | hin2
              · exact Event.noConfusion he
              rcases List.mem_append.mp hin2 with h3 | h4
              · rcases mkdirAll_mem o.mkdirOk _ _ (by rw [hdevs]; exact h3) with ⟨pp, hpp⟩
                exact Event.noConfusion hpp
              · simp at h4
  · rw [hpi] at h; simp at h

theorem processQueue_writeMarkdown_mem (o : String → ItemOracle) (bp cat : String) :
    ∀ (urls : List String) (n : Nat) (s : List String) (p : String) (q : CodingQuestion),
      Event.writeMarkdown p q ∈ (processQueue o bp cat urls n s).1 →
      q.title ≠ "" ∧ q.description ≠ "" := by
  intro urls
  induction urls with
  | nil => intro n s p q h; simp [processQueue] at h
  | cons url rest ih =>
    intro n s p q h
    simp only [processQueue] at h
    split at h
    · exact ih _ _ _ _ h
    · rcases List.mem_append.mp h with h1 | h2
      · exact processItem_writeMarkdown_mem (o url) bp cat url n p q h1
      · exact ih _ _ _ _ h2

theorem runScraper_writeMarkdown_mem (o : String → ItemOracle) (bp : String) :
    ∀ (catalog : List (String × List String)) (s : List String) (p : String)
      (q : CodingQuestion),
      Event.writeMarkdown p q ∈ (runScraper o bp catalog s).1 →
      q.title ≠ "" ∧ q.description ≠ "" := by
  intro catalog
  induction catalog with
  | nil => intro s p q h; simp [runScraper] at h
  | cons c rest ih =>
    intro s p q h
    rcases c with ⟨cat, urls⟩
    simp only [runScraper] at h
    rcases List.mem_append.mp h with h1 | h2
    · exact processQueue_writeMarkdown_mem o bp cat urls 1 s p q h1
    · exact ih _ _ _ h2

theorem processQueue_all_skipped (o : String → ItemOracle) (bp cat : String) :
    ∀ (urls : List String) (n : Nat) (s : List String),
      (∀ u ∈ urls, s.contains u = true) →
      processQueue o bp cat urls n s = ([], s) := by
  intro urls
  induction urls with
  | nil => intro n s _; rfl
  | cons url rest ih =>
    intro n s hall
    rw [processQueue, if_pos (hall url (List.mem_cons_self url rest))]
    exact ih (n + 1) s (fun u hu => hall u (List.mem_cons_of_mem url hu))

theorem runScraper_all_skipped (o : String → ItemOracle) (bp : String) :
    ∀ (catalog : List (String × List String)) (s0 : List String),
      (∀ c ∈ catalog, ∀ u ∈ c.2, s0.contains u = true) →
      runScraper o bp catalog s0 = ([], s0) := by
  intro catalog
  induction catalog with
  | nil => intro s0 _; rfl
  | cons c rest ih =>
    intro s0 hall
    rcases c with ⟨cat, urls⟩
    have h1 := processQueue_all_skipped o bp cat urls 1 s0
      (fun u hu => hall (cat, urls) (List.mem_cons_self _ _) u hu)
    have h2 := ih s0 (fun d hd u hu => hall d (List.mem_cons_of_mem _ hd) u hu)
    simp [runScraper, h1, h2]

/-! ## Claim theorems -/

/-- Claim C1 (counterexample): on the claim's fragment sequence the pairing
algorithm reads the input fragment at offset 2 of each period-3 group, so it
attempts JSON.parse on "x" and "y"; both throw, and the two produced records
carry only names — not the two records the claim requires. -/
theorem c1_pairing_spec_sequence_cex :
    extractTestCases demoFrags =
      [⟨none, none, "Test Case 1"⟩, ⟨none, none, "Test Case 2"⟩] ∧
      extractTestCases demoFrags ≠
        [⟨some (Json.arr [Json.num "1", Json.num "2", Json.num "3"]), some (Json.num "5"),
            "Test Case 1"⟩,
         ⟨some (Json.arr [Json.num "4", Json.num "5"]), some (Json.str "True"),
            "Test Case 2"⟩] := by
  refine ⟨rfl, ?_⟩
  intro hcontra
  rw [show extractTestCases demoFrags =
    [⟨none, none, "Test Case 1"⟩, ⟨none, none, "Test Case 2"⟩] from rfl] at hcontra
  simp at hcontra

/-- Claim C1 (amended): the six fragments yield exactly the two claimed
records when laid out as the code consumes them — expected at offset 0 and
input at offset 2 of each period-3 group, with the extraneous fragment in
between rather than after the pair. -/
theorem c1_pairing_reordered_sequence :
    extractTestCases demoFragsReordered =
      [⟨some (Json.arr [Json.num "1", Json.num "2", Json.num "3"]), some (Json.num "5"),
          "Test Case 1"⟩,
       ⟨some (Json.arr [Json.num "4", Json.num "5"]), some (Json.str "True"),
          "Test Case 2"⟩] := rfl

/-- Claim C2: the pairing loop starts at expectIdx 0 and inputIdx 2 and
advances expectIdx to inputIdx + 1 and inputIdx to the new expectIdx + 2, so
the k-th record (k from 0) is built from the fragments at indices 3k and
3k + 2, and every produced record is named "Test Case n" with n = k + 1,
incremented once per tuple regardless of parse failures. -/
theorem c2_cursor_walk :
    (∀ (frags : List String) (k : Nat), 3 * k + 2 < frags.length →
        (extractTestCases frags)[k]? =
          some (pairTestCase (frags.getD (3 * k) "") (frags.getD (3 * k + 2) "") (k + 1))) ∧
      ∀ (e i : String) (n : Nat), (pairTestCase e i n).name = "Test Case " ++ toString n :=
  ⟨extractTestCases_getElem?, pairTestCase_name⟩

/-- Witness for C2 on a concrete fragment sequence. -/
theorem c2_cursor_walk_witness :
    3 * 1 + 2 < demoFrags.length ∧
      (extractTestCases demoFrags)[1]? =
        some (pairTestCase (demoFrags.getD (3 * 1) "") (demoFrags.getD (3 * 1 + 2) "")
          (1 + 1)) :=
  ⟨by decide, c2_cursor_walk.1 demoFrags 1 (by decide)⟩

/-- Claim C5 (counterexample): for the fragment " true" (leading space), the
trimmed text begins with an ASCII letter, so the claim requires the raw
string to be kept; but the code applies the regex to the untrimmed text, the
test fails, and JSON.parse(" true") yields the boolean instead. -/
theorem c5_trim_sniff_cex :
    startsWithAsciiLetter (jsTrim " true") = true ∧
      (pairTestCase " true" "[1]" 1).expected = some (Json.bool true) ∧
      some (Json.bool true) ≠ some (Json.str " true") := by
  refine ⟨rfl, rfl, ?_⟩
  intro hcontra
  simp at hcontra

/-- Claim C5 (amended): the letter sniff is applied to the raw, untrimmed
fragment text, and only runs when the paired input fragment parsed: with a
leading ASCII letter the raw string is kept verbatim, otherwise the expected
field holds the JSON.parse result (absent exactly when that parse throws). -/
theorem c5_letter_sniff (e i : String) (n : Nat) (v : Json)
    (hv : jsonParse i = some v) :
    (startsWithAsciiLetter e = true →
        (pairTestCase e i n).expected = some (Json.str e)) ∧
      (startsWithAsciiLetter e = false →
        (pairTestCase e i n).expected = jsonParse e) := by
  constructor
  · intro hl
    simp [pairTestCase, hv, hl]
  · intro hl
    simp [pairTestCase, hv, hl]

/-- Witness for C5 on the fragments of the spec's pairing example. -/
theorem c5_letter_sniff_witness :
    jsonParse "[4,5]" = some (Json.arr [Json.num "4", Json.num "5"]) ∧
      startsWithAsciiLetter "True" = true ∧
      (pairTestCase "True" "[4,5]" 2).expected = some (Json.str "True") :=
  ⟨rfl, rfl,
    (c5_letter_sniff "True" "[4,5]" 2 (Json.arr [Json.num "4", Json.num "5"]) rfl).1 rfl⟩

/-- Claim C6 (counterexample): with expected fragment "5" (valid JSON) and
input fragment "x" (invalid), the input fragment is the only offending one,
yet the single try block aborts before assigning expected, so both fields —
not only the offending inputs field — are left unset on that record. -/
theorem c6_offending_field_cex :
    jsonParse "x" = none ∧ jsonParse "5" = some (Json.num "5") ∧
      (pairTestCase "5" "x" 1).inputs = none ∧
      (pairTestCase "5" "x" 1).expected = none ∧
      (pairTestCase "5" "x" 1).name = "Test Case 1" :=
  ⟨rfl, rfl, rfl, rfl, rfl⟩

/-- Claim C6 (amended): a parse failure is non-fatal and every later tuple is
still produced, but the granularity is: a failed input parse leaves both
inputs and expected unset on that record, while a failed expected parse
(input parsed, no letter prefix) leaves only expected unset. -/
theorem c6_parse_failure_isolation :
    (∀ (e i : String) (n : Nat), jsonParse i = none →
        pairTestCase e i n = ⟨none, none, mkName n⟩) ∧
      (∀ (e i : String) (n : Nat) (v : Json), jsonParse i = some v →
        startsWithAsciiLetter e = false → jsonParse e = none →
        pairTestCase e i n = ⟨some v, none, mkName n⟩) ∧
      ∀ (frags : List String) (k : Nat), 3 * k + 2 < frags.length →
        (extractTestCases frags)[k]? =
          some (pairTestCase (frags.getD (3 * k) "") (frags.getD (3 * k + 2) "") (k + 1)) := by
  refine ⟨?_, ?_, extractTestCases_getElem?⟩
  · intro e i n h
    rw [pairTestCase, h]
  · intro e i n v hv hl he
    simp [pairTestCase, hv, hl, he]

/-- Witness for C6 on the second tuple of the spec's pairing example. -/
theorem c6_parse_failure_isolation_witness :
    jsonParse "y" = none ∧ pairTestCase "True" "y" 2 = ⟨none, none, mkName 2⟩ :=
  ⟨rfl, c6_parse_failure_isolation.1 "True" "y" 2 rfl⟩

/-- Claim C9: the pairing loop performs no out-of-bounds access — record k
exists only when 3k + 2 is in bounds — a fragment sequence shorter than 3
yields an empty collection, and length L yields exactly L / 3 records. -/
theorem c9_bounds :
    (∀ frags : List String, (extractTestCases frags).length = frags.length / 3) ∧
      (∀ frags : List String, frags.length < 3 → extractTestCases frags = []) ∧
      ∀ (frags : List String) (k : Nat), k < (extractTestCases frags).length →
        3 * k + 2 < frags.length := by
  refine ⟨extractTestCases_length, ?_, ?_⟩
  · intro frags h
    have hlen := extractTestCases_length frags
    have hz : (extractTestCases frags).length = 0 := by omega
    exact List.length_eq_zero.mp hz
  · intro frags k hk
    have hlen := extractTestCases_length frags
    omega

/-- Witness for C9 on a two-fragment sequence. -/
theorem c9_bounds_witness :
    (["a", "b"] : List String).length < 3 ∧ extractTestCases ["a", "b"] = [] :=
  ⟨by decide, c9_bounds.2.1 ["a", "b"] (by decide)⟩

/-- The catalog used by the resume-idempotence witness. -/
def demoCatalog : List (String × List String) := [("Arrays", ["https://a", "https://b"])]

/-- Claim C3: with every catalog identifier already in the loaded skip-list,
a second run performs no effects at all — each identifier is rejected by the
membership test before navigation, extraction, directory creation, file
writes, or commit — and the scraped set is returned unchanged. -/
theorem c3_resume_idempotence (o : String → ItemOracle) (bp : String)
    (catalog : List (String × List String)) (s0 : List String)
    (hall : ∀ c ∈ catalog, ∀ u ∈ c.2, s0.contains u = true) :
    runScraper o bp catalog s0 = ([], s0) :=
  runScraper_all_skipped o bp catalog s0 hall

/-- Witness for C3 on a one-category catalog fully covered by the skip-list. -/
theorem c3_resume_idempotence_witness :
    runScraper (fun _ => oGood) "base" demoCatalog ["https://a", "https://b"] =
      ([], ["https://a", "https://b"]) :=
  c3_resume_idempotence (fun _ => oGood) "base" demoCatalog ["https://a", "https://b"]
    (by decide)

/-- Claim C4: a committed item's trace ends with the markdown write, the JSON
write, and only then the skip-list append; when the item does not commit, the
append never appears in its trace and either a thrown step was logged with
the URL as the final effect or the item was the no-throw metadata rejection;
and the queue equation shows the loop continuing with the next identifier of
the same category in both cases. -/
theorem c4_commit_ordering (o : String → ItemOracle) (bp cat url : String) (n : Nat) :
    ((processItem (o url) bp cat url n).2 = true →
      ∃ q frags devs,
        (processItem (o url) bp cat url n).1 =
          Event.navigate url :: devs ++
            [Event.extractTC url,
             Event.writeMarkdown (pathJoin (itemDirPath bp cat n q.title) "README.md") q,
             Event.writeJson (pathJoin (itemDirPath bp cat n q.title) "testcases.json")
               (extractTestCases frags),
             Event.appendSkip url]) ∧
    ((processItem (o url) bp cat url n).2 = false →
      Event.appendSkip url ∉ (processItem (o url) bp cat url n).1 ∧
        ((processItem (o url) bp cat url n).1.getLast? = some (Event.logError url) ∨
          (processItem (o url) bp cat url n).1 = [Event.navigate url])) ∧
    ∀ (rest : List String) (s : List String), s.contains url = false →
      processQueue o bp cat (url :: rest) n s =
        ((processItem (o url) bp cat url n).1 ++
            (processQueue o bp cat rest (n + 1)
              (if (processItem (o url) bp cat url n).2 then s ++ [url] else s)).1,
          (processQueue o bp cat rest (n + 1)
            (if (processItem (o url) bp cat url n).2 then s ++ [url] else s)).2) := by
  refine ⟨?_, ?_, ?_⟩
  · intro h
    rcases processItem_committed_shape (o url) bp cat url n h with
      ⟨q, frags, devs, _, _, _, _, _, htr⟩
    exact ⟨q, frags, devs, htr⟩
  · intro h
    exact processItem_failed_shape (o url) bp cat url n h
  · intro rest s hc
    rw [processQueue, if_neg (by simpa using hc)]

/-- Witness for C4 on a fully successful item. -/
theorem c4_commit_ordering_witness :
    (processItem oGood "base" "Arrays" "https://u" 1).2 = true ∧
      ∃ q frags devs,
        (processItem oGood "base" "Arrays" "https://u" 1).1 =
          Event.navigate "https://u" :: devs ++
            [Event.extractTC "https://u",
             Event.writeMarkdown (pathJoin (itemDirPath "base" "Arrays" 1 q.title) "README.md") q,
             Event.writeJson (pathJoin (itemDirPath "base" "Arrays" 1 q.title) "testcases.json")
               (extractTestCases frags),
             Event.appendSkip "https://u"] :=
  ⟨rfl, (c4_commit_ordering (fun _ => oGood) "base" "Arrays" "https://u" 1).1 rfl⟩

/-- Claim C7: an extracted record with empty title or empty description is
rejected before persistence — the item's trace is only the navigation, so no
directory, no file, no commit; an absent title or missing example block
aborts the item as a failure, likewise with no persistence effects; and in
any full run, every markdown write carries a record with non-empty title and
non-empty description. -/
theorem c7_invalid_record_rejection :
    (∀ (o : ItemOracle) (bp cat url : String) (n : Nat) (q : CodingQuestion),
        o.navOk = true → extractQuestionData o = some q →
        (q.title = "" ∨ q.description = "") →
        processItem o bp cat url n = ([Event.navigate url], false)) ∧
      (∀ (o : ItemOracle) (bp cat url : String) (n : Nat),
        extractQuestionData o = none →
        processItem o bp cat url n = ([Event.navigate url, Event.logError url], false)) ∧
      ∀ (o : String → ItemOracle) (bp : String) (catalog : List (String × List String))
        (s : List String) (p : String) (q : CodingQuestion),
        Event.writeMarkdown p q ∈ (runScraper o bp catalog s).1 →
        q.title ≠ "" ∧ q.description ≠ "" := by
  refine ⟨?_, ?_, fun o bp catalog s p q h => runScraper_writeMarkdown_mem o bp catalog s p q h⟩
  · intro o bp cat url n q hnav hq hempty
    rw [processItem, if_pos hnav, hq]
    exact if_pos hempty
  · intro o bp cat url n hq
    by_cases hnav : o.navOk = true
    · rw [processItem, if_pos hnav, hq]
    · rw [processItem, if_neg hnav]

/-- Witness for C7 on an item whose page has an empty description. -/
theorem c7_invalid_record_rejection_witness :
    processItem oEmptyDesc "base" "Arrays" "https://u" 1 =
      ([Event.navigate "https://u"], false) :=
  c7_invalid_record_rejection.1 oEmptyDesc "base" "Arrays" "https://u" 1
    ⟨"Two Number Sum", "", "[1, 2]", "3"⟩ rfl rfl (Or.inr rfl)

theorem mkdirAll_mem_of (ok : String → Bool) :
    ∀ (l : List String) (e : Event), e ∈ (mkdirAll ok l).1 →
      ∃ p, p ∈ l ∧ e = Event.mkdir p := by
  intro l
  induction l with
  | nil => intro e he; simp [mkdirAll] at he
  | cons p rest ih =>
    intro e he
    by_cases h : ok p = true
    · simp only [mkdirAll, if_pos h] at he
      rcases List.mem_cons.mp he with h1 | h2
      · exact ⟨p, List.mem_cons_self _ _, h1⟩
      · rcases ih e h2 with ⟨p0, hp0, he0⟩
        exact ⟨p0, List.mem_cons_of_mem _ hp0, he0⟩
    · simp only [mkdirAll, if_neg h] at he
      simp at he

theorem mkdir_path_of_mem (basePaths : List String) (ok : String → Bool)
    (devs : List Event) (flag : Bool) (hdevs : mkdirAll ok basePaths = (devs, flag))
    (url : String) (suffix : List Event) (hsuf : ∀ pth, Event.mkdir pth ∉ suffix)
    (pth : String) (h : Event.mkdir pth ∈ Event.navigate url :: devs ++ suffix) :
    pth ∈ basePaths := by
  rcases List.mem_cons.mp h with he | h2
  · exact Event.noConfusion he
  rcases List.mem_append.mp h2 with h3 | h4
  · rcases mkdirAll_mem_of ok basePaths _ (by rw [hdevs]; exact h3) with ⟨p0, hp0, heq⟩
    injection heq with hh
    rw [hh]
    exact hp0
  · exact absurd h4 (hsuf pth)

/-- Every directory creation in an item's trace targets either the item
directory `<base>/<category>/<NN>-<dashed title>` or one of its per-language
subdirectories, where NN comes from the item's 1-based position. -/
theorem processItem_mkdir_paths (o : ItemOracle) (bp cat url : String) (n : Nat)
    (q : CodingQuestion) (hq : extractQuestionData o = some q) :
    ∀ pth : String, Event.mkdir pth ∈ (processItem o bp cat url n).1 →
      pth = itemDirPath bp cat n q.title ∨
        pth ∈ LANGUAGES.map (fun lang => pathJoin (itemDirPath bp cat n q.title) lang) := by
  intro pth h
  have hpi : processItem o bp cat url n = processItem o bp cat url n := rfl
  conv_rhs at hpi => rw [processItem]
  split at hpi
  · split at hpi
    · rename_i hq0
      rw [hq0] at hq
      exact Option.noConfusion hq
    · rename_i q0 hq0
      have hqq : q0 = q := by
        rw [hq0] at hq
        injection hq
      subst hqq
      split at hpi
      · rw [hpi] at h
        simp at h
      · split at hpi
        · rename_i devs hdevs
          rw [hpi] at h
          have hmem := mkdir_path_of_mem _ o.mkdirOk devs _ hdevs url _
            (by intro p0 hp0; simp at hp0) pth h
          rcases List.mem_cons.mp hmem with h5 | h5
          · exact Or.inl h5
          · exact Or.inr h5
        · rename_i devs hdevs
          split at hpi
          · rw [hpi] at h
            have hmem := mkdir_path_of_mem _ o.mkdirOk devs _ hdevs url _
              (by intro p0 hp0; simp at hp0) pth h
            rcases List.mem_cons.mp hmem with h5 | h5
            · exact Or.inl h5
            · exact Or.inr h5
          · rename_i frags hfrags
            split at hpi
            · split at hpi
              · split at hpi
                · rw [hpi] at h
                  have hmem := mkdir_path_of_mem _ o.mkdirOk devs _ hdevs url _
                    (by intro p0 hp0; simp at hp0) pth h
                  rcases List.mem_cons.mp hmem with h5 | h5
                  · exact Or.inl h5
                  · exact Or.inr h5
                · rw [hpi] at h
                  have hmem := mkdir_path_of_mem _ o.mkdirOk devs _ hdevs url _
                    (by intro p0 hp0; simp at hp0) pth h
                  rcases List.mem_cons.mp hmem with h5 | h5
                  · exact Or.inl h5
                  · exact Or.inr h5
              · rw [hpi] at h
                have hmem := mkdir_path_of_mem _ o.mkdirOk devs _ hdevs url _
                  (by intro p0 hp0; simp at hp0) pth h
                rcases List.mem_cons.mp hmem with h5 | h5
                · exact Or.inl h5
                · exact Or.inr h5
            · rw [hpi] at h
              have hmem := mkdir_path_of_mem _ o.mkdirOk devs _ hdevs url _
                (by intro p0 hp0; simp at hp0) pth h
              rcases List.mem_cons.mp hmem with h5 | h5
              · exact Or.inl h5
              · exact Or.inr h5
  · rw [hpi] at h
    simp at h

/-- Claim C8: the directory name is the 1-based category position, zero-padded
to two digits for positions 1 through 9 and unpadded from 10 on, a dash, and
the title with whitespace runs replaced by dashes; position 3 with title
"Two Number Sum" yields "03-Two-Number-Sum" and position 12 yields a name
beginning "12-"; and every directory the pipeline creates for the item
processed at position n is that directory or a per-language subdirectory. -/
theorem c8_directory_naming :
    dirName 3 "Two Number Sum" = "03-Two-Number-Sum" ∧
      (∀ (n : Nat) (t : String), 1 ≤ n → n ≤ 9 →
        dirName n t = ("0" ++ toString n ++ "-") ++ dashedTitle t) ∧
      (∀ (n : Nat) (t : String), 10 ≤ n →
        dirName n t = (toString n ++ "-") ++ dashedTitle t) ∧
      (∀ t : String, ∃ r, dirName 12 t = "12-" ++ r) ∧
      ∀ (o : ItemOracle) (bp cat url : String) (n : Nat) (q : CodingQuestion),
        extractQuestionData o = some q →
        ∀ pth : String, Event.mkdir pth ∈ (processItem o bp cat url n).1 →
          pth = itemDirPath bp cat n q.title ∨
            pth ∈ LANGUAGES.map (fun lang => pathJoin (itemDirPath bp cat n q.title) lang) := by
  refine ⟨rfl, ?_, ?_, ?_, fun o bp cat url n q hq => processItem_mkdir_paths o bp cat url n q hq⟩
  · intro n t h1 h9
    rw [dirName, numberTag, if_neg (by omega)]
  · intro n t h10
    rw [dirName, numberTag, if_pos (by omega)]
  · intro t
    exact ⟨dashedTitle t, rfl⟩

/-- Witness for C8: padding at position 5, no padding at position 12, and the
directory actually created for a successful item at position 1. -/
theorem c8_directory_naming_witness :
    dirName 5 "Ab Cd" = ("0" ++ toString 5 ++ "-") ++ dashedTitle "Ab Cd" ∧
      (Event.mkdir "base/Arrays/01-Two-Number-Sum" ∈
          (processItem oGood "base" "Arrays" "https://u" 1).1 →
        "base/Arrays/01-Two-Number-Sum" = itemDirPath "base" "Arrays" 1 "Two Number Sum" ∨
          "base/Arrays/01-Two-Number-Sum" ∈
            LANGUAGES.map (fun lang =>
              pathJoin (itemDirPath "base" "Arrays" 1 "Two Number Sum") lang)) :=
  ⟨c8_directory_naming.2.1 5 "Ab Cd" (by decide) (by decide),
    c8_directory_naming.2.2.2.2 oGood "base" "Arrays" "https://u" 1
      ⟨"Two Number Sum", "A sample description.", "[1, 2]", "3"⟩ rfl
      "base/Arrays/01-Two-Number-Sum"⟩

/-- Claim C10 (counterexample): in a fully successful item run, the recorded
trace creates the output directory as its second event, strictly before the
test-case panel interaction, so directory creation precedes test-case
extraction — refuting the claim that it never does. -/
theorem c10_dir_before_extract_cex :
    (processItem oGood "base" "Arrays" "https://u" 1).1.take 2 =
      [Event.navigate "https://u", Event.mkdir "base/Arrays/01-Two-Number-Sum"] ∧
      hasMkdirBeforeExtract (processItem oGood "base" "Arrays" "https://u" 1).1 = true :=
  ⟨rfl, rfl⟩

/-- Claim C10 (amended): directory creation happens before — not after —
test-case extraction: a committed item's trace is the navigation, then all
directory creations, then the test-case panel interaction, then the two file
writes and the commit, in that order. -/
theorem c10_persist_order (o : ItemOracle) (bp cat url : String) (n : Nat)
    (h : (processItem o bp cat url n).2 = true) :
    ∃ q frags devs, extractQuestionData o = some q ∧ o.testcaseFrags = some frags ∧
      (∀ e ∈ devs, ∃ p, e = Event.mkdir p) ∧ devs.length = 1 + LANGUAGES.length ∧
      (processItem o bp cat url n).1 =
        Event.navigate url :: devs ++
          [Event.extractTC url,
           Event.writeMarkdown (pathJoin (itemDirPath bp cat n q.title) "README.md") q,
           Event.writeJson (pathJoin (itemDirPath bp cat n q.title) "testcases.json")
             (extractTestCases frags),
           Event.appendSkip url] := by
  rcases processItem_committed_shape o bp cat url n h with
    ⟨q, frags, devs, hq, _, hfrags, hdevs, hlen, htr⟩
  exact ⟨q, frags, devs, hq, hfrags, hdevs, hlen, htr⟩

/-- Witness for the amended C10 on a fully successful item. -/
theorem c10_persist_order_witness :
    (processItem oGood "base" "Arrays" "https://u" 1).2 = true ∧
      ∃ q frags devs, extractQuestionData oGood = some q ∧
        oGood.testcaseFrags = some frags ∧
        (∀ e ∈ devs, ∃ p, e = Event.mkdir p) ∧ devs.length = 1 + LANGUAGES.length ∧
        (processItem oGood "base" "Arrays" "https://u" 1).1 =
          Event.navigate "https://u" :: devs ++
            [Event.extractTC "https://u",
             Event.writeMarkdown (pathJoin (itemDirPath "base" "Arrays" 1 q.title) "README.md") q,
             Event.writeJson (pathJoin (itemDirPath "base" "Arrays" 1 q.title) "testcases.json")
               (extractTestCases frags),
             Event.appendSkip "https://u"] :=
  ⟨rfl, c10_persist_order oGood "base" "Arrays" "https://u" 1 rfl⟩

end AlgoScraper
